import Mathlib

set_option maxHeartbeats 1000000
set_option linter.unusedTactic false
set_option linter.unreachableTactic false

/-!
Verification development for the context-resolver library.

The development shallowly embeds the provider, resolution-cache, and
graph-traversal engine of the repository:

* the keyed-cache provider family (src/unnamed/part_001, src/src/index.ts):
  `resolve`, `mount`, `complete`, `cacheResolution`, `persisted`/`once`,
  provider-level defaults and per-call caching options;
* the no-resolver default (`makePhonyResolver`);
* the single-slot memoization family (src/unnamed/part_002) with the
  `isTransient` flag;
* the graph traversal resolvers (`createProviderMockResolver`,
  `createProviderCloneResolver`) and group `isolate` from src/src/index.ts.

Modelling conventions.  JavaScript promises all settle in the claims under
study, and cache population is synchronous with resolution initiation, so a
resolution call is embedded as an atomic state transition.  The user-supplied
resolver is embedded as a function from the invocation index (how many times
the resolver has run before) to the produced instance; the assembly of the
dependency container is orthogonal to every cache claim and is absorbed into
that function.  A JS Map is embedded as an association list with last-wins
lookup: `set` appends and `delete` filters, which is observationally the map
semantics for `get`/`delete`.  Disposer functions are embedded as opaque
numeric tokens, since the claims only count and order their invocations.
Provider object identity (reference equality) is embedded as a `ref` field
allocated from a monotone counter threaded through every `createProvider`
call.
-/

namespace ContextResolver

/-- jsLookup embeds JavaScript keyed lookup on an association list built by
appending entries: later entries win, exactly like repeated `Map.set` or the
later keys of `Object.fromEntries`. -/
def jsLookup {κ ν : Type} [DecidableEq κ] : List (κ × ν) → κ → Option ν
  | [], _ => none
  | kv :: rest, k =>
    match jsLookup rest k with
    | some v => some v
    | none => if kv.1 = k then some kv.2 else none

/-- eraseKey embeds `Map.delete`. -/
def eraseKey {κ ν : Type} [DecidableEq κ] (l : List (κ × ν)) (k : κ) : List (κ × ν) :=
  l.filter (fun kv => kv.1 ≠ k)

/-- CachingOpts embeds the per-call caching options of part_001:
`{ disposer?: Disposer, ttl?: number }`.  The disposer is an opaque token. -/
structure CachingOpts where
  disposer : Option Nat := none
  ttl : Option Nat := none
deriving DecidableEq

/-- Entry embeds one `CachedResolution`: the (settled) resolution value plus
the effective ttl and effective user disposer captured by `cache.set`. -/
structure Entry (α : Type) where
  resolution : α
  ttl : Option Nat
  disposer : Option Nat
deriving DecidableEq

/-- PCfg embeds the immutable per-provider data relevant to caching:
the resolver (indexed by invocation count), `defaultCacheKey`,
`defaultCacheTTL` and the provider-level default `disposer` of part_001. -/
structure PCfg (α : Type) where
  res : Nat → α
  defaultCacheKey : Option String := none
  defaultCacheTTL : Option Nat := none
  disposer : Option Nat := none

/-- PState is the mutable state owned by one provider: its resolution cache
map and the number of resolver invocations performed so far. -/
structure PState (α : Type) where
  cache : List (String × Entry α) := []
  count : Nat := 0
deriving DecidableEq

/-- jsOrNum embeds `a || b` for JavaScript numbers: `0` is falsy, so a ttl of
zero falls back to the default. -/
def jsOrNum (o d : Option Nat) : Option Nat :=
  match o with
  | some t => if t = 0 then d else some t
  | none => d

/-- jsOrFn embeds `a || b` for JavaScript functions: any present function is
truthy. -/
def jsOrFn (o d : Option Nat) : Option Nat :=
  match o with
  | some f => some f
  | none => d

/-- cacheResolution embeds part_001 `cacheResolution`: it performs
`cache.set` with `disposer: cacheOpts?.disposer || disposer` and
`ttl: cacheOpts?.ttl || defaultCacheTTL`. -/
def cacheResolution {α : Type} (cfg : PCfg α) (c : List (String × Entry α))
    (key : String) (resolution : α) (opts : CachingOpts) : List (String × Entry α) :=
  c ++ [(key, ⟨resolution, jsOrNum opts.ttl cfg.defaultCacheTTL,
               jsOrFn opts.disposer cfg.disposer⟩)]

/-- resolve embeds the provider call of part_001/index.ts:
`cacheKey ??= defaultCacheKey; if (cacheKey) { hit? return cached : invoke
and cache } else invoke`.  Note `if (cacheKey)` is a JS truthiness test, so
the empty string disables caching. -/
def resolve {α : Type} (cfg : PCfg α) (cacheKey : Option String)
    (opts : CachingOpts) (st : PState α) : α × PState α :=
  let k := match cacheKey with
    | some s => some s
    | none => cfg.defaultCacheKey
  match k with
  | some s =>
    if s = "" then (cfg.res st.count, ⟨st.cache, st.count + 1⟩)
    else
      match jsLookup st.cache s with
      | some e => (e.resolution, st)
      | none =>
        (cfg.res st.count,
         ⟨cacheResolution cfg st.cache s (cfg.res st.count) opts, st.count + 1⟩)
  | none => (cfg.res st.count, ⟨st.cache, st.count + 1⟩)

/-- resolveIter is n successive resolution calls with the same arguments. -/
def resolveIter {α : Type} (cfg : PCfg α) (cacheKey : Option String)
    (opts : CachingOpts) : Nat → PState α → PState α
  | 0, st => st
  | n + 1, st => resolveIter cfg cacheKey opts n (resolve cfg cacheKey opts st).2

/-- resolveSeq is one resolution call per key in the given list, in order. -/
def resolveSeq {α : Type} (cfg : PCfg α) (opts : CachingOpts)
    (keys : List String) (st : PState α) : PState α :=
  keys.foldl (fun st k => (resolve cfg (some k) opts st).2) st

/-- CacheEvent records the observable cache effects in order: a user disposer
invocation (by token), a map deletion, a map insertion. -/
inductive CacheEvent where
  | disposerCall (d : Nat)
  | del (key : String)
  | set (key : String)
deriving DecidableEq

/-- disposeEntryEvents embeds `CachedResolution.dispose` of part_001: the
entry cleaner awaits the user disposer (when present) and then deletes the
map entry. -/
def disposeEntryEvents {α : Type} (e : Entry α) (key : String) : List CacheEvent :=
  (match e.disposer with
   | some d => [CacheEvent.disposerCall d]
   | none => []) ++ [CacheEvent.del key]

/-- mount embeds part_001 `mount`: it awaits
`cache.get(cacheKey)?.dispose()` and then caches the given instance.  The
resolver is never invoked. -/
def mount {α : Type} (cfg : PCfg α) (inst : α) (cacheKey : String)
    (opts : CachingOpts) (st : PState α) : α × PState α × List CacheEvent :=
  match jsLookup st.cache cacheKey with
  | some e =>
    (inst,
     ⟨cacheResolution cfg (eraseKey st.cache cacheKey) cacheKey inst opts, st.count⟩,
     disposeEntryEvents e cacheKey ++ [CacheEvent.set cacheKey])
  | none =>
    (inst, ⟨cacheResolution cfg st.cache cacheKey inst opts, st.count⟩,
     [CacheEvent.set cacheKey])

/-- complete embeds the key/cache path of part_001 `complete`: the resolver
runs on the merged container first, then, when the effective cache key is
truthy, the old entry under the key is disposed and the new resolution is
cached.  The merging of `resolvedPart` with the resolutions of the remaining
dependencies only shapes the resolver input and is absorbed into the
invocation-indexed resolver. -/
def complete {α : Type} (cfg : PCfg α) (cacheKey : Option String)
    (opts : CachingOpts) (st : PState α) : α × PState α × List CacheEvent :=
  let k := match cacheKey with
    | some s => some s
    | none => cfg.defaultCacheKey
  let v := cfg.res st.count
  match k with
  | some s =>
    if s = "" then (v, ⟨st.cache, st.count + 1⟩, [])
    else
      match jsLookup st.cache s with
      | some e =>
        (v, ⟨cacheResolution cfg (eraseKey st.cache s) s v opts, st.count + 1⟩,
         disposeEntryEvents e s ++ [CacheEvent.set s])
      | none =>
        (v, ⟨cacheResolution cfg st.cache s v opts, st.count + 1⟩,
         [CacheEvent.set s])
  | none => (v, ⟨st.cache, st.count + 1⟩, [])

/-- exceptRejected tests whether a stored resolution outcome is a rejected
promise. -/
def exceptRejected {ε ι : Type} : Except ε ι → Bool
  | .error _ => true
  | .ok _ => false

/-- disposeAllEntries embeds the no-key branch of part_001 `dispose()`:
`Promise.all` starts the disposal of every entry; a fulfilled entry runs its
entry cleaner (user disposer, then map.delete) even when another disposal
rejects, while a rejected entry throws on `await opts.resolution` before its
cleaner runs, keeping both its map slot and its disposer uninvoked; the
aggregate call rejects (the Bool) when any entry was rejected.  Events are
listed in map order; the source starts them concurrently. -/
def disposeAllEntries {α : Type} (isRejected : α → Bool) :
    List (String × Entry α) → List (String × Entry α) × List CacheEvent × Bool
  | [] => ([], [], false)
  | (k, e) :: rest =>
    let r := disposeAllEntries isRejected rest
    if isRejected e.resolution then ((k, e) :: r.1, r.2.1, true)
    else (r.1, disposeEntryEvents e k ++ r.2.1, r.2.2)

/-- disposeProvider embeds part_001 `dispose(cacheKey?)`: a truthy key
disposes that one entry (no-op when absent); otherwise every entry is
disposed.  Entry disposal is `stopDisposeTimer(); await
opts.disposer?.(await opts.resolution)`: the stored resolution is awaited
first, to become the argument of the entry cleaner, so when that resolution
is rejected the await throws before the cleaner runs — no user disposer is
invoked, the map entry is NOT deleted, and the dispose call itself rejects
(the Bool component of the result). -/
def disposeProvider {α : Type} (isRejected : α → Bool) (st : PState α)
    (cacheKey : Option String) : PState α × List CacheEvent × Bool :=
  match cacheKey with
  | some s =>
    if s = "" then
      (⟨(disposeAllEntries isRejected st.cache).1, st.count⟩,
       (disposeAllEntries isRejected st.cache).2.1,
       (disposeAllEntries isRejected st.cache).2.2)
    else
      match jsLookup st.cache s with
      | some e =>
        if isRejected e.resolution then (st, [], true)
        else (⟨eraseKey st.cache s, st.count⟩, disposeEntryEvents e s, false)
      | none => (st, [], false)
  | none =>
    (⟨(disposeAllEntries isRejected st.cache).1, st.count⟩,
     (disposeAllEntries isRejected st.cache).2.1,
     (disposeAllEntries isRejected st.cache).2.2)

/-- SINGLETON_CACHE_KEY is the fixed fallback default cache key. -/
def SINGLETON_CACHE_KEY : String := "singleton"

/-- jsOrStr embeds `a || b` for JavaScript strings: the empty string is
falsy. -/
def jsOrStr (o : Option String) (d : String) : String :=
  match o with
  | some s => if s = "" then d else s
  | none => d

/-- persisted embeds part_001 `persisted(cacheKey?)` (identical to
`once(cacheKey?)` of index.ts): the derived provider carries
`defaultCacheKey: cacheKey || SINGLETON_CACHE_KEY` and a fresh cache, which
is why theorems about it start from the empty `PState`. -/
def persisted {α : Type} (cfg : PCfg α) (cacheKey : Option String) : PCfg α :=
  { cfg with defaultCacheKey := some (jsOrStr cacheKey SINGLETON_CACHE_KEY) }

/-- natCfg is a concrete provider configuration whose resolver returns the
invocation index, i.e. a resolver producing a distinct instance per call. -/
def natCfg : PCfg Nat := { res := fun n => n }

/-! Basic lemmas about the association-list embedding of JS maps. -/

theorem jsLookup_append {κ ν : Type} [DecidableEq κ]
    (l : List (κ × ν)) (k k' : κ) (v : ν) :
    jsLookup (l ++ [(k, v)]) k' = if k = k' then some v else jsLookup l k' := by
  induction l with
  | nil => simp [jsLookup]
  | cons kv rest ih =>
    by_cases h : k = k'
    · subst h
      simp [jsLookup, ih]
    · simp [jsLookup, ih, h]

theorem jsLookup_cacheResolution_self {α : Type} (cfg : PCfg α)
    (c : List (String × Entry α)) (key : String) (r : α) (opts : CachingOpts) :
    jsLookup (cacheResolution cfg c key r opts) key =
      some ⟨r, jsOrNum opts.ttl cfg.defaultCacheTTL, jsOrFn opts.disposer cfg.disposer⟩ := by
  simp [cacheResolution, jsLookup_append]

theorem jsLookup_cacheResolution_other {α : Type} (cfg : PCfg α)
    (c : List (String × Entry α)) (key k' : String) (r : α) (opts : CachingOpts)
    (h : key ≠ k') :
    jsLookup (cacheResolution cfg c key r opts) k' = jsLookup c k' := by
  simp [cacheResolution, jsLookup_append, h]

/-! Behaviour of a single resolution call. -/

theorem resolve_hit {α : Type} (cfg : PCfg α) (opts : CachingOpts)
    (st : PState α) (s : String) (e : Entry α)
    (hs : s ≠ "") (h : jsLookup st.cache s = some e) :
    resolve cfg (some s) opts st = (e.resolution, st) := by
  simp [resolve, hs, h]

theorem resolve_miss {α : Type} (cfg : PCfg α) (opts : CachingOpts)
    (st : PState α) (s : String)
    (hs : s ≠ "") (h : jsLookup st.cache s = none) :
    resolve cfg (some s) opts st =
      (cfg.res st.count,
       ⟨cacheResolution cfg st.cache s (cfg.res st.count) opts, st.count + 1⟩) := by
  simp [resolve, hs, h]

theorem resolve_nokey {α : Type} (cfg : PCfg α) (opts : CachingOpts)
    (st : PState α) (h : cfg.defaultCacheKey = none) :
    resolve cfg none opts st = (cfg.res st.count, ⟨st.cache, st.count + 1⟩) := by
  simp [resolve, h]

theorem resolveIter_stable {α : Type} (cfg : PCfg α) (opts : CachingOpts)
    (s : String) (hs : s ≠ "") :
    ∀ (n : Nat) (st : PState α), (jsLookup st.cache s).isSome →
      resolveIter cfg (some s) opts n st = st := by
  intro n
  induction n with
  | zero => intro st _; rfl
  | succ m ih =>
    intro st hsome
    obtain ⟨e, he⟩ := Option.isSome_iff_exists.mp hsome
    simp [resolveIter, resolve_hit cfg opts st s e hs he, ih st hsome]

/-! The JavaScript value model, used where truthiness of instances matters
(the single-slot variant) and for the empty-container default. -/

/-- JsVal is a first-order model of the JavaScript values appearing in the
engine: null/undefined, booleans, numbers, strings and plain objects. -/
inductive JsVal : Type where
  | vNull : JsVal
  | vBool (b : Bool) : JsVal
  | vNum (n : Int) : JsVal
  | vStr (s : String) : JsVal
  | vObj (fields : List (String × JsVal)) : JsVal

/-- truthy is JavaScript truthiness: null/undefined, false, 0 and the empty
string are falsy; every object is truthy. -/
def truthy : JsVal → Bool
  | .vNull => false
  | .vBool b => b
  | .vNum n => n != 0
  | .vStr s => s != ""
  | .vObj _ => true

/-! The no-resolver default (makePhonyResolver, src/src/index.ts 269-272). -/

/-- ProviderDef embeds the data of `createProvider(id, opts)` that decides
the no-resolver behaviour: the identifier and the optional resolver (a
function from the dependency container to the instance). -/
structure ProviderDef where
  id : String
  resolver : Option (List (String × JsVal) → JsVal) := none

/-- makePhonyResolver embeds the fallback resolver installed when
`opts?.resolver` is absent: it resolves to the empty object. -/
def makePhonyResolver : List (String × JsVal) → JsVal := fun _ => JsVal.vObj []

/-- runResolver invokes the effective resolver of a provider on a container:
the user resolver when present, otherwise `makePhonyResolver`. -/
def runResolver (p : ProviderDef) (container : List (String × JsVal)) : JsVal :=
  match p.resolver with
  | some f => f container
  | none => makePhonyResolver container

/-- provide embeds `provide(id)` with no options: no dependencies and no
resolver. -/
def provide (id : String) : ProviderDef := { id := id }

/-- provideCall embeds `await provide(id)()`: a provider with no
dependencies resolves its (empty) container and runs its effective
resolver on it. -/
def provideCall (p : ProviderDef) : JsVal := runResolver p []

/-! The single-slot memoization variant (src/unnamed/part_002). -/

/-- P2Cfg embeds the part_002 provider data relevant to resolution: the
resolver (indexed by invocation count) and the `isTransient` flag. -/
structure P2Cfg where
  res : Nat → JsVal
  isTransient : Bool := false

/-- P2State is the mutable state of a part_002 provider: the private
`resolvedInstance` slot (undefined at first) and the number of resolver
invocations so far. -/
structure P2State where
  resolvedInstance : Option JsVal := none
  count : Nat := 0

/-- jsTruthyOpt is the truthiness of a possibly-undefined value, as tested
by `if (resolvedInstance && !isTransient)`. -/
def jsTruthyOpt : Option JsVal → Bool
  | some v => truthy v
  | none => false

/-- resolve2 embeds the part_002 resolution call:
`if (resolvedInstance && !isTransient) return resolvedInstance;
resolvedInstance = await resolver(await container()); return it`.
The per-instance callbacks are orthogonal to the claims and omitted. -/
def resolve2 (cfg : P2Cfg) (st : P2State) : JsVal × P2State :=
  if jsTruthyOpt st.resolvedInstance && !cfg.isTransient then
    (st.resolvedInstance.getD JsVal.vNull, st)
  else
    (cfg.res st.count, ⟨some (cfg.res st.count), st.count + 1⟩)

/-- resolve2Iter is n successive part_002 resolution calls. -/
def resolve2Iter (cfg : P2Cfg) : Nat → P2State → P2State
  | 0, st => st
  | n + 1, st => resolve2Iter cfg n (resolve2 cfg st).2

/-- transient embeds the part_002 `transient()` builder: a provider with
`isTransient: true`. -/
def transient (cfg : P2Cfg) : P2Cfg := { cfg with isTransient := true }

/-- singleton embeds the part_002 `singleton()` builder: a provider with
`isTransient: false` (the default). -/
def singleton (cfg : P2Cfg) : P2Cfg := { cfg with isTransient := false }

/-! Helper lemmas for counting resolver invocations. -/

theorem resolveIter_same_key_once {α : Type} (cfg : PCfg α) (opts : CachingOpts)
    (st : PState α) (s : String) (n : Nat)
    (hs : s ≠ "") (hmiss : jsLookup st.cache s = none) (hn : 1 ≤ n) :
    (resolveIter cfg (some s) opts n st).count = st.count + 1 := by
  obtain ⟨m, rfl⟩ : ∃ m, n = m + 1 := ⟨n - 1, by omega⟩
  have hstep := resolve_miss cfg opts st s hs hmiss
  have hcached :
      (jsLookup (resolve cfg (some s) opts st).2.cache s).isSome := by
    rw [hstep]
    simp [jsLookup_cacheResolution_self]
  calc (resolveIter cfg (some s) opts (m + 1) st).count
      = (resolveIter cfg (some s) opts m (resolve cfg (some s) opts st).2).count := rfl
    _ = (resolve cfg (some s) opts st).2.count := by
        rw [resolveIter_stable cfg opts s hs m _ hcached]
    _ = st.count + 1 := by rw [hstep]

theorem resolveSeq_distinct_counts {α : Type} (cfg : PCfg α) (opts : CachingOpts) :
    ∀ (keys : List String) (st : PState α), keys.Nodup →
      (∀ k ∈ keys, k ≠ "" ∧ jsLookup st.cache k = none) →
      (resolveSeq cfg opts keys st).count = st.count + keys.length := by
  intro keys
  induction keys with
  | nil => intro st _ _; simp [resolveSeq]
  | cons k ks ih =>
    intro st hnd hk
    obtain ⟨hk1, hk2⟩ := hk k (by simp)
    have hstep := resolve_miss cfg opts st k hk1 hk2
    have hrest : ∀ k' ∈ ks, k' ≠ "" ∧
        jsLookup (resolve cfg (some k) opts st).2.cache k' = none := by
      intro k' hk'
      obtain ⟨h1, h2⟩ := hk k' (by simp [hk'])
      refine ⟨h1, ?_⟩
      rw [hstep]
      have hne : k ≠ k' := by
        rintro rfl
        exact (List.nodup_cons.mp hnd).1 hk'
      simpa [jsLookup_cacheResolution_other cfg _ _ _ _ _ hne] using h2
    have : resolveSeq cfg opts (k :: ks) st =
        resolveSeq cfg opts ks (resolve cfg (some k) opts st).2 := rfl
    rw [this, ih _ (List.nodup_cons.mp hnd).2 hrest, hstep]
    simp [List.length_cons]
    omega

theorem resolveIter_nokey_counts {α : Type} (cfg : PCfg α) (opts : CachingOpts)
    (hdk : cfg.defaultCacheKey = none) :
    ∀ (n : Nat) (st : PState α),
      (resolveIter cfg none opts n st).count = st.count + n := by
  intro n
  induction n with
  | zero => intro st; simp [resolveIter]
  | succ m ih =>
    intro st
    have : resolveIter cfg none opts (m + 1) st =
        resolveIter cfg none opts m (resolve cfg none opts st).2 := rfl
    rw [this, ih, resolve_nokey cfg opts st hdk]
    simp <;> omega

/-- C1 (amended to nonempty cache keys): on a cache hit under a nonempty key
(explicit or taken from the default cache key) the call returns the stored
resolution with the state, in particular the invocation count, unchanged; n
resolutions with the same fresh nonempty key invoke the resolver exactly
once; resolutions under pairwise-distinct fresh nonempty keys invoke it once
each; and n resolutions with no key (and no default key) invoke it n times.
The empty-string cache key is excluded: JS truthiness makes `if (cacheKey)`
treat it as absent, see the counterexample. -/
theorem c1_at_most_one_construction_per_key :
    (∀ (α : Type) (cfg : PCfg α) (opts : CachingOpts) (st : PState α)
        (s : String) (e : Entry α), s ≠ "" → jsLookup st.cache s = some e →
        resolve cfg (some s) opts st = (e.resolution, st)) ∧
    (∀ (α : Type) (cfg : PCfg α) (opts : CachingOpts) (st : PState α)
        (s : String) (e : Entry α), cfg.defaultCacheKey = some s → s ≠ "" →
        jsLookup st.cache s = some e →
        resolve cfg none opts st = (e.resolution, st)) ∧
    (∀ (α : Type) (cfg : PCfg α) (opts : CachingOpts) (st : PState α)
        (s : String) (n : Nat), s ≠ "" → jsLookup st.cache s = none → 1 ≤ n →
        (resolveIter cfg (some s) opts n st).count = st.count + 1) ∧
    (∀ (α : Type) (cfg : PCfg α) (opts : CachingOpts) (st : PState α)
        (keys : List String), keys.Nodup →
        (∀ k ∈ keys, k ≠ "" ∧ jsLookup st.cache k = none) →
        (resolveSeq cfg opts keys st).count = st.count + keys.length) ∧
    (∀ (α : Type) (cfg : PCfg α) (opts : CachingOpts) (st : PState α)
        (n : Nat), cfg.defaultCacheKey = none →
        (resolveIter cfg none opts n st).count = st.count + n) := by
  refine ⟨?_, ?_, ?_, ?_, ?_⟩
  · intro α cfg opts st s e hs h
    exact resolve_hit cfg opts st s e hs h
  · intro α cfg opts st s e hdk hs h
    simp [resolve, hdk, hs, h]
  · intro α cfg opts st s n hs h hn
    exact resolveIter_same_key_once cfg opts st s n hs h hn
  · intro α cfg opts st keys hnd hk
    exact resolveSeq_distinct_counts cfg opts keys st hnd hk
  · intro α cfg opts st n hdk
    exact resolveIter_nokey_counts cfg opts hdk n st

/-- C1 witness: the amended theorem applied at concrete inputs. -/
theorem c1_at_most_one_construction_per_key_witness :
    resolve natCfg (some "k") {} ⟨[("k", ⟨42, none, none⟩)], 5⟩ =
      ((42 : Nat), ⟨[("k", ⟨42, none, none⟩)], 5⟩) ∧
    resolve { natCfg with defaultCacheKey := some "k" } none {}
        ⟨[("k", ⟨42, none, none⟩)], 5⟩ =
      ((42 : Nat), ⟨[("k", ⟨42, none, none⟩)], 5⟩) ∧
    (resolveIter natCfg (some "k") {} 3 ⟨[], 0⟩).count = 1 ∧
    (resolveSeq natCfg {} ["a", "b", "c"] ⟨[], 0⟩).count = 3 ∧
    (resolveIter natCfg none {} 4 ⟨[], 0⟩).count = 4 := by
  refine ⟨?_, ?_, ?_, ?_, ?_⟩
  · exact c1_at_most_one_construction_per_key.1 Nat natCfg {} _ "k" ⟨42, none, none⟩
      (by decide) (by decide)
  · exact c1_at_most_one_construction_per_key.2.1 Nat _ {} _ "k" ⟨42, none, none⟩
      rfl (by decide) (by decide)
  · simpa using c1_at_most_one_construction_per_key.2.2.1 Nat natCfg {} ⟨[], 0⟩ "k" 3
      (by decide) (by decide) (by decide)
  · simpa using c1_at_most_one_construction_per_key.2.2.2.1 Nat natCfg {} ⟨[], 0⟩
      ["a", "b", "c"] (by decide) (by decide)
  · simpa using c1_at_most_one_construction_per_key.2.2.2.2 Nat natCfg {} ⟨[], 0⟩ 4 rfl

/-- C1 counterexample to the claim as stated: with the empty-string cache
key, two resolutions with the same key invoke the resolver twice, not once,
because `if (cacheKey)` treats the empty string as absent. -/
theorem c1_empty_key_counterexample :
    (resolveIter natCfg (some "") {} 2 ⟨[], 0⟩).count ≠
      (⟨[], 0⟩ : PState Nat).count + 1 := by
  decide

/-- C2 (amended): mounting over an occupied key, for any key, and completing
over an occupied nonempty key first invoke the old entry user disposer
(exactly once, when the entry has one), then delete the old entry, and only
then store the new resolution; with no entry under the key no disposer runs.
The amendment excludes `complete` with the empty-string key, which neither
disposes nor stores (see the counterexample). -/
theorem c2_dispose_before_replace :
    (∀ (α : Type) (cfg : PCfg α) (inst : α) (opts : CachingOpts) (st : PState α)
        (k : String) (e : Entry α) (d : Nat),
        jsLookup st.cache k = some e → e.disposer = some d →
        (mount cfg inst k opts st).2.2 =
          [CacheEvent.disposerCall d, CacheEvent.del k, CacheEvent.set k] ∧
        jsLookup (mount cfg inst k opts st).2.1.cache k =
          some ⟨inst, jsOrNum opts.ttl cfg.defaultCacheTTL,
                jsOrFn opts.disposer cfg.disposer⟩) ∧
    (∀ (α : Type) (cfg : PCfg α) (inst : α) (opts : CachingOpts) (st : PState α)
        (k : String), jsLookup st.cache k = none →
        (mount cfg inst k opts st).2.2 = [CacheEvent.set k]) ∧
    (∀ (α : Type) (cfg : PCfg α) (opts : CachingOpts) (st : PState α)
        (s : String) (e : Entry α) (d : Nat),
        s ≠ "" → jsLookup st.cache s = some e → e.disposer = some d →
        (complete cfg (some s) opts st).2.2 =
          [CacheEvent.disposerCall d, CacheEvent.del s, CacheEvent.set s] ∧
        jsLookup (complete cfg (some s) opts st).2.1.cache s =
          some ⟨cfg.res st.count, jsOrNum opts.ttl cfg.defaultCacheTTL,
                jsOrFn opts.disposer cfg.disposer⟩) ∧
    (∀ (α : Type) (cfg : PCfg α) (opts : CachingOpts) (st : PState α)
        (s : String), s ≠ "" → jsLookup st.cache s = none →
        (complete cfg (some s) opts st).2.2 = [CacheEvent.set s]) := by
  refine ⟨?_, ?_, ?_, ?_⟩
  · intro α cfg inst opts st k e d hget hd
    constructor
    · simp [mount, hget, disposeEntryEvents, hd]
    · simp [mount, hget, jsLookup_cacheResolution_self]
  · intro α cfg inst opts st k hget
    simp [mount, hget]
  · intro α cfg opts st s e d hs hget hd
    constructor
    · simp [complete, hs, hget, disposeEntryEvents, hd]
    · simp [complete, hs, hget, jsLookup_cacheResolution_self]
  · intro α cfg opts st s hs hget
    simp [complete, hs, hget]

/-- C2 witness: the amended theorem applied at concrete inputs. -/
theorem c2_dispose_before_replace_witness :
    (mount natCfg 9 "k" {} ⟨[("k", ⟨42, none, some 7⟩)], 0⟩).2.2 =
      [CacheEvent.disposerCall 7, CacheEvent.del "k", CacheEvent.set "k"] ∧
    jsLookup (mount natCfg 9 "k" {} ⟨[("k", ⟨42, none, some 7⟩)], 0⟩).2.1.cache "k" =
      some ⟨9, none, none⟩ ∧
    (mount natCfg 9 "k" {} ⟨[], 0⟩).2.2 = [CacheEvent.set "k"] ∧
    (complete natCfg (some "k") {} ⟨[("k", ⟨42, none, some 7⟩)], 0⟩).2.2 =
      [CacheEvent.disposerCall 7, CacheEvent.del "k", CacheEvent.set "k"] ∧
    (complete natCfg (some "k") {} ⟨[], 0⟩).2.2 = [CacheEvent.set "k"] := by
  refine ⟨?_, ?_, ?_, ?_, ?_⟩
  · exact (c2_dispose_before_replace.1 Nat natCfg 9 {} _ "k" ⟨42, none, some 7⟩ 7
      (by decide) rfl).1
  · exact (c2_dispose_before_replace.1 Nat natCfg 9 {} _ "k" ⟨42, none, some 7⟩ 7
      (by decide) rfl).2
  · exact c2_dispose_before_replace.2.1 Nat natCfg 9 {} _ "k" (by decide)
  · exact (c2_dispose_before_replace.2.2.1 Nat natCfg {} _ "k" ⟨42, none, some 7⟩ 7
      (by decide) (by decide) rfl).1
  · exact c2_dispose_before_replace.2.2.2 Nat natCfg {} _ "k" (by decide) (by decide)

/-- C2 counterexample to the claim as stated: an entry can sit under the
empty-string key (mount stores under any key), yet `complete` with that key
invokes no disposer at all and leaves the old entry in place, because
`if (cacheKey)` treats the empty string as absent. -/
theorem c2_empty_key_complete_counterexample :
    (mount natCfg 5 "" { disposer := some 7 } ⟨[], 0⟩).2.1.cache =
      [("", ⟨5, none, some 7⟩)] ∧
    (complete natCfg (some "") {} ⟨[("", ⟨5, none, some 7⟩)], 0⟩).2.2 = [] ∧
    jsLookup (complete natCfg (some "") {} ⟨[("", ⟨5, none, some 7⟩)], 0⟩).2.1.cache ""
      = some ⟨5, none, some 7⟩ := by
  decide

theorem jsLookup_eraseKey {κ ν : Type} [DecidableEq κ] (l : List (κ × ν)) (k : κ) :
    jsLookup (eraseKey l k) k = none := by
  induction l with
  | nil => rfl
  | cons kv rest ih =>
    have hsplit : eraseKey (kv :: rest) k =
        if kv.1 = k then eraseKey rest k else kv :: eraseKey rest k := by
      simp only [eraseKey, List.filter_cons]
      by_cases h : kv.1 = k <;> simp [h]
    rw [hsplit]
    by_cases h : kv.1 = k
    · simpa [h] using ih
    · simp [jsLookup, ih, h]

theorem jsLookup_eraseKey_other {κ ν : Type} [DecidableEq κ] (l : List (κ × ν))
    (k k' : κ) (h : k ≠ k') :
    jsLookup (eraseKey l k) k' = jsLookup l k' := by
  induction l with
  | nil => rfl
  | cons kv rest ih =>
    have hsplit : eraseKey (kv :: rest) k =
        if kv.1 = k then eraseKey rest k else kv :: eraseKey rest k := by
      simp only [eraseKey, List.filter_cons]
      by_cases hh : kv.1 = k <;> simp [hh]
    rw [hsplit]
    by_cases hh : kv.1 = k
    · rw [if_pos hh, ih]
      have : kv.1 ≠ k' := hh ▸ h
      simp [jsLookup, this]
      cases jsLookup rest k' <;> simp
    · rw [if_neg hh]
      simp [jsLookup, ih]

/-- C5: for a provider derived by `persisted("main")` (identically
`once("main")`), a call with no key and a call with key "main" settle to the
same instance, while a call with key "other" yields a distinct instance when
the resolver produces a distinct instance per call; and with no key argument
the default cache key is the literal string "singleton". -/
theorem c5_default_key_override (α : Type) (f : Nat → α)
    (hf : Function.Injective f) (dTTL dDisp : Option Nat) :
    (resolve (persisted ⟨f, none, dTTL, dDisp⟩ (some "main")) none {} ⟨[], 0⟩).1 =
      (resolve (persisted ⟨f, none, dTTL, dDisp⟩ (some "main")) (some "main") {}
        (resolve (persisted ⟨f, none, dTTL, dDisp⟩ (some "main")) none {} ⟨[], 0⟩).2).1 ∧
    (resolve (persisted ⟨f, none, dTTL, dDisp⟩ (some "main")) none {} ⟨[], 0⟩).1 ≠
      (resolve (persisted ⟨f, none, dTTL, dDisp⟩ (some "main")) (some "other") {}
        (resolve (persisted ⟨f, none, dTTL, dDisp⟩ (some "main")) (some "main") {}
          (resolve (persisted ⟨f, none, dTTL, dDisp⟩ (some "main")) none {} ⟨[], 0⟩).2).2).1 ∧
    (persisted ⟨f, none, dTTL, dDisp⟩ (some "main")).defaultCacheKey = some "main" ∧
    (persisted ⟨f, none, dTTL, dDisp⟩ none).defaultCacheKey = some "singleton" := by
  have h0 : resolve (persisted ⟨f, none, dTTL, dDisp⟩ (some "main")) none {} ⟨[], 0⟩ =
      (f 0, ⟨cacheResolution (persisted ⟨f, none, dTTL, dDisp⟩ (some "main")) [] "main"
        (f 0) {}, 1⟩) := by
    simp [resolve, persisted, jsOrStr, jsLookup, cacheResolution]
  refine ⟨?_, ?_, by simp [persisted, jsOrStr],
    by simp [persisted, jsOrStr, SINGLETON_CACHE_KEY]⟩
  · rw [h0]
    simp [resolve, persisted, jsOrStr, jsLookup_cacheResolution_self]
  · rw [h0]
    have h1 : resolve (persisted ⟨f, none, dTTL, dDisp⟩ (some "main")) (some "main") {}
        ⟨cacheResolution (persisted ⟨f, none, dTTL, dDisp⟩ (some "main")) [] "main"
          (f 0) {}, 1⟩ =
        ((f 0), ⟨cacheResolution (persisted ⟨f, none, dTTL, dDisp⟩ (some "main")) [] "main"
          (f 0) {}, 1⟩) := by
      simp [resolve, jsLookup_cacheResolution_self]
    rw [h1]
    have h2 : jsLookup (cacheResolution (persisted ⟨f, none, dTTL, dDisp⟩ (some "main"))
        [] "main" (f 0) {}) "other" = none := by
      rw [jsLookup_cacheResolution_other _ _ _ _ _ _ (by decide)]
      rfl
    have h3 := resolve_miss (persisted ⟨f, none, dTTL, dDisp⟩ (some "main")) {}
        (⟨cacheResolution (persisted ⟨f, none, dTTL, dDisp⟩ (some "main")) [] "main"
          (f 0) {}, 1⟩) "other" (by decide) h2
    rw [h3]
    intro h
    have h4 := hf h
    simp at h4

/-- C5 witness: the theorem applied to the identity resolver on Nat, which
produces a distinct instance on every invocation. -/
theorem c5_default_key_override_witness :
    (resolve (persisted ⟨fun n => n, none, none, none⟩ (some "main")) none {} ⟨[], 0⟩).1 =
      (resolve (persisted ⟨fun n => n, none, none, none⟩ (some "main")) (some "main") {}
        (resolve (persisted ⟨fun n => n, none, none, none⟩ (some "main")) none {} ⟨[], 0⟩).2).1 ∧
    (resolve (persisted ⟨fun n => n, none, none, none⟩ (some "main")) none {} ⟨[], 0⟩).1 ≠
      (resolve (persisted ⟨fun n => n, none, none, none⟩ (some "main")) (some "other") {}
        (resolve (persisted ⟨fun n => n, none, none, none⟩ (some "main")) (some "main") {}
          (resolve (persisted ⟨fun n => n, none, none, none⟩ (some "main")) none {} ⟨[], 0⟩).2).2).1 ∧
    (persisted ⟨fun n => n, none, none, none⟩ (some "main")).defaultCacheKey = some "main" ∧
    (persisted (⟨fun n => n, none, none, none⟩ : PCfg Nat) none).defaultCacheKey =
      some "singleton" :=
  c5_default_key_override Nat (fun n => n) (fun a b h => h) none none

/-- C6 (amended): when the resolver rejects, a resolution call with a fresh
NONEMPTY cache key k stores the rejected resolution under k and returns it;
every later call with key k returns the stored rejection with the whole
state (cache and invocation count) unchanged, so the resolver is not
re-invoked; and the rejected entry cannot be evicted at all: even an
explicit `dispose(k)` awaits the stored resolution before the entry cleaner
runs, so it rejects without invoking any disposer or deleting the entry, and
the next call with key k still returns the same rejection without
re-invoking the resolver.  The statements are for ttl-free calls, the only
case in which the source arms no eviction timer. -/
theorem c6_failed_resolution_poisons_key (ι ε : Type) (f : Nat → Except ε ι)
    (err : ε) (st : PState (Except ε ι)) (k : String) (dDisp : Option Nat)
    (hk : k ≠ "") (hmiss : jsLookup st.cache k = none)
    (hf : f st.count = Except.error err) :
    (resolve ⟨f, none, none, dDisp⟩ (some k) {} st).1 = Except.error err ∧
    jsLookup (resolve ⟨f, none, none, dDisp⟩ (some k) {} st).2.cache k =
      some ⟨Except.error err, none, dDisp⟩ ∧
    (∀ n, resolveIter ⟨f, none, none, dDisp⟩ (some k) {} n
        (resolve ⟨f, none, none, dDisp⟩ (some k) {} st).2 =
      (resolve ⟨f, none, none, dDisp⟩ (some k) {} st).2) ∧
    (resolve ⟨f, none, none, dDisp⟩ (some k) {}
        (resolve ⟨f, none, none, dDisp⟩ (some k) {} st).2).1 = Except.error err ∧
    disposeProvider exceptRejected (resolve ⟨f, none, none, dDisp⟩ (some k) {} st).2
        (some k) =
      ((resolve ⟨f, none, none, dDisp⟩ (some k) {} st).2, [], true) ∧
    (resolve ⟨f, none, none, dDisp⟩ (some k) {}
        (disposeProvider exceptRejected
          (resolve ⟨f, none, none, dDisp⟩ (some k) {} st).2 (some k)).1).1 =
      Except.error err ∧
    (resolve ⟨f, none, none, dDisp⟩ (some k) {}
        (disposeProvider exceptRejected
          (resolve ⟨f, none, none, dDisp⟩ (some k) {} st).2 (some k)).1).2.count =
      (resolve ⟨f, none, none, dDisp⟩ (some k) {} st).2.count := by
  have hstep := resolve_miss ⟨f, none, none, dDisp⟩ {} st k hk hmiss
  have hentry : jsLookup (resolve ⟨f, none, none, dDisp⟩ (some k) {} st).2.cache k =
      some ⟨Except.error err, none, dDisp⟩ := by
    rw [hstep]
    simp only [jsLookup_cacheResolution_self, hf]
    rfl
  have hd : disposeProvider exceptRejected
      (resolve ⟨f, none, none, dDisp⟩ (some k) {} st).2 (some k) =
      ((resolve ⟨f, none, none, dDisp⟩ (some k) {} st).2, [], true) := by
    simp [disposeProvider, hk, hentry, exceptRejected]
  refine ⟨by rw [hstep]; simpa using hf, hentry, ?_, ?_, hd, ?_, ?_⟩
  · intro n
    exact resolveIter_stable _ {} k hk n _ (by simp [hentry])
  · rw [resolve_hit _ {} _ k _ hk hentry]
  · rw [hd]
    rw [resolve_hit _ {} _ k _ hk hentry]
  · rw [hd]
    rw [resolve_hit _ {} _ k _ hk hentry]

/-- C6 witness: the amended theorem applied to a resolver that always
rejects, at key "k" from the empty cache. -/
theorem c6_failed_resolution_poisons_key_witness :
    (resolve ⟨fun _ => (Except.error "boom" : Except String Nat), none, none, none⟩
        (some "k") {} ⟨[], 0⟩).1 = Except.error "boom" ∧
    jsLookup (resolve ⟨fun _ => (Except.error "boom" : Except String Nat), none, none, none⟩
        (some "k") {} ⟨[], 0⟩).2.cache "k" = some ⟨Except.error "boom", none, none⟩ ∧
    (∀ n, resolveIter ⟨fun _ => (Except.error "boom" : Except String Nat), none, none, none⟩
        (some "k") {} n
        (resolve ⟨fun _ => (Except.error "boom" : Except String Nat), none, none, none⟩
          (some "k") {} ⟨[], 0⟩).2 =
      (resolve ⟨fun _ => (Except.error "boom" : Except String Nat), none, none, none⟩
        (some "k") {} ⟨[], 0⟩).2) ∧
    (resolve ⟨fun _ => (Except.error "boom" : Except String Nat), none, none, none⟩
        (some "k") {}
        (resolve ⟨fun _ => (Except.error "boom" : Except String Nat), none, none, none⟩
          (some "k") {} ⟨[], 0⟩).2).1 = Except.error "boom" ∧
    disposeProvider exceptRejected
        (resolve ⟨fun _ => (Except.error "boom" : Except String Nat), none, none, none⟩
          (some "k") {} ⟨[], 0⟩).2 (some "k") =
      ((resolve ⟨fun _ => (Except.error "boom" : Except String Nat), none, none, none⟩
        (some "k") {} ⟨[], 0⟩).2, [], true) ∧
    (resolve ⟨fun _ => (Except.error "boom" : Except String Nat), none, none, none⟩
        (some "k") {}
        (disposeProvider exceptRejected
          (resolve ⟨fun _ => (Except.error "boom" : Except String Nat), none, none, none⟩
            (some "k") {} ⟨[], 0⟩).2 (some "k")).1).1 = Except.error "boom" ∧
    (resolve ⟨fun _ => (Except.error "boom" : Except String Nat), none, none, none⟩
        (some "k") {}
        (disposeProvider exceptRejected
          (resolve ⟨fun _ => (Except.error "boom" : Except String Nat), none, none, none⟩
            (some "k") {} ⟨[], 0⟩).2 (some "k")).1).2.count =
      (resolve ⟨fun _ => (Except.error "boom" : Except String Nat), none, none, none⟩
        (some "k") {} ⟨[], 0⟩).2.count :=
  c6_failed_resolution_poisons_key Nat String (fun _ => Except.error "boom") "boom"
    ⟨[], 0⟩ "k" none (by decide) rfl rfl

/-- C6 counterexample to the claim as stated, in both failing clauses: with
the empty-string cache key nothing is stored (the cache stays empty) and a
second call re-invokes the resolver, because `if (cacheKey)` treats the
empty string as absent; and the clause "until the entry under k is
explicitly disposed" fails too, because dispose("k") on an entry holding a
rejected resolution rejects without deleting it — the entry is still there
afterwards and the next call returns the same rejection without invoking the
resolver. -/
theorem c6_empty_key_counterexample :
    (resolve ⟨fun _ => (Except.error "boom" : Except String Nat), none, none, none⟩
        (some "") {} ⟨[], 0⟩).2.cache = [] ∧
    (resolveIter ⟨fun _ => (Except.error "boom" : Except String Nat), none, none, none⟩
        (some "") {} 2 ⟨[], 0⟩).count = 2 ∧
    disposeProvider exceptRejected
        (⟨[("k", ⟨Except.error "boom", none, none⟩)], 1⟩ : PState (Except String Nat))
        (some "k") =
      (⟨[("k", ⟨Except.error "boom", none, none⟩)], 1⟩, [], true) ∧
    (resolve ⟨fun _ => (Except.error "boom" : Except String Nat), none, none, none⟩
        (some "k") {}
        (disposeProvider exceptRejected
          (⟨[("k", ⟨Except.error "boom", none, none⟩)], 1⟩ : PState (Except String Nat))
          (some "k")).1).1 = Except.error "boom" ∧
    (resolve ⟨fun _ => (Except.error "boom" : Except String Nat), none, none, none⟩
        (some "k") {}
        (disposeProvider exceptRejected
          (⟨[("k", ⟨Except.error "boom", none, none⟩)], 1⟩ : PState (Except String Nat))
          (some "k")).1).2.count = 1 := by
  exact ⟨rfl, rfl, rfl, rfl, rfl⟩

/-- C9 (amended): a per-call nonzero ttl overrides the provider default TTL
and a per-call disposer overrides the provider default disposer in the
created cache entry; the provider defaults apply when the per-call option is
absent.  The amendment excludes a per-call ttl of 0, which JS falsiness
(`cacheOpts?.ttl || defaultCacheTTL`) treats as absent, see the
counterexample. -/
theorem c9_per_call_options_override (α : Type) (cfg : PCfg α)
    (opts : CachingOpts) (st : PState α) (s : String)
    (hs : s ≠ "") (hmiss : jsLookup st.cache s = none) :
    ∃ e : Entry α,
      jsLookup (resolve cfg (some s) opts st).2.cache s = some e ∧
      e.resolution = cfg.res st.count ∧
      (∀ t, opts.ttl = some t → t ≠ 0 → e.ttl = some t) ∧
      (opts.ttl = none → e.ttl = cfg.defaultCacheTTL) ∧
      (∀ d, opts.disposer = some d → e.disposer = some d) ∧
      (opts.disposer = none → e.disposer = cfg.disposer) := by
  refine ⟨⟨cfg.res st.count, jsOrNum opts.ttl cfg.defaultCacheTTL,
    jsOrFn opts.disposer cfg.disposer⟩, ?_, rfl, ?_, ?_, ?_, ?_⟩
  · rw [resolve_miss cfg opts st s hs hmiss]
    exact jsLookup_cacheResolution_self cfg st.cache s (cfg.res st.count) opts
  · intro t ht ht0
    simp [jsOrNum, ht, ht0]
  · intro ht
    simp [jsOrNum, ht]
  · intro d hd
    simp [jsOrFn, hd]
  · intro hd
    simp [jsOrFn, hd]

/-- C9 witness: the amended theorem applied at concrete inputs, with a
per-call ttl of 2000 and a per-call disposer 9 overriding defaults 5000 and
7. -/
theorem c9_per_call_options_override_witness :
    ∃ e : Entry Nat,
      jsLookup (resolve ⟨fun n => n, none, some 5000, some 7⟩ (some "k")
        ⟨some 9, some 2000⟩ ⟨[], 0⟩).2.cache "k" = some e ∧
      e.resolution = (⟨fun n => n, none, some 5000, some 7⟩ : PCfg Nat).res 0 ∧
      (∀ t, (⟨some 9, some 2000⟩ : CachingOpts).ttl = some t → t ≠ 0 → e.ttl = some t) ∧
      ((⟨some 9, some 2000⟩ : CachingOpts).ttl = none →
        e.ttl = (⟨fun n => n, none, some 5000, some 7⟩ : PCfg Nat).defaultCacheTTL) ∧
      (∀ d, (⟨some 9, some 2000⟩ : CachingOpts).disposer = some d → e.disposer = some d) ∧
      ((⟨some 9, some 2000⟩ : CachingOpts).disposer = none →
        e.disposer = (⟨fun n => n, none, some 5000, some 7⟩ : PCfg Nat).disposer) := by
  have h := c9_per_call_options_override Nat ⟨fun n => n, none, some 5000, some 7⟩
    ⟨some 9, some 2000⟩ ⟨[], 0⟩ "k" (by decide) (by decide)
  simpa using h

/-- C9 counterexample to the claim as stated: a per-call ttl of 0 does not
override the provider default of 5000; the entry is created with ttl 5000,
because `cacheOpts?.ttl || defaultCacheTTL` treats 0 as falsy. -/
theorem c9_zero_ttl_counterexample :
    (jsLookup (resolve (⟨fun n => n, none, some 5000, none⟩ : PCfg Nat) (some "k")
        ⟨none, some 0⟩ ⟨[], 0⟩).2.cache "k").map Entry.ttl ≠ some (some 0) ∧
    (jsLookup (resolve (⟨fun n => n, none, some 5000, none⟩ : PCfg Nat) (some "k")
        ⟨none, some 0⟩ ⟨[], 0⟩).2.cache "k").map Entry.ttl = some (some 5000) := by
  decide

/-- C10: calling persisted (or once) with the empty string sets the default
cache key to the literal "singleton", exactly as with no argument, and no
argument can ever make the empty string the default cache key, because of
the fallback `cacheKey || SINGLETON_CACHE_KEY`. -/
theorem c10_empty_string_never_default_key (α : Type) (cfg : PCfg α) :
    persisted cfg (some "") = persisted cfg none ∧
    (persisted cfg (some "")).defaultCacheKey = some "singleton" ∧
    ∀ k, (persisted cfg k).defaultCacheKey ≠ some "" := by
  refine ⟨rfl, rfl, ?_⟩
  intro k
  cases k with
  | none => simp [persisted, jsOrStr, SINGLETON_CACHE_KEY]
  | some s =>
    by_cases h : s = "" <;>
      simp [persisted, jsOrStr, SINGLETON_CACHE_KEY, h]

/-- C7: a provider created with no resolver resolves to the empty object
rather than failing, for every id, via `makePhonyResolver`. -/
theorem c7_no_resolver_empty_object :
    ∀ id : String, provideCall (provide id) = JsVal.vObj [] ∧ (provide id).id = id := by
  intro id
  exact ⟨rfl, rfl⟩

/-- C8 code-bug evaluation: in the single-slot variant the memo check is
`if (resolvedInstance && !isTransient)`, a JS truthiness test on the cached
instance itself.  With `isTransient` false a resolver returning the falsy
instance 0 is re-invoked on every call (two calls make two invocations),
contradicting the documented create-once contract, while a truthy instance
is constructed once; with `isTransient` true (after `transient()`) every
call re-invokes the resolver as claimed. -/
theorem c8_single_slot_truthiness_bug :
    (resolve2Iter ⟨fun _ => JsVal.vNum 0, false⟩ 2 ⟨none, 0⟩).count = 2 ∧
    (resolve2Iter ⟨fun _ => JsVal.vNum 1, false⟩ 2 ⟨none, 0⟩).count = 1 ∧
    (resolve2Iter (transient ⟨fun _ => JsVal.vNum 1, false⟩) 2 ⟨none, 0⟩).count = 2 ∧
    (resolve2Iter (singleton ⟨fun _ => JsVal.vNum 1, true⟩) 2 ⟨none, 0⟩).count = 1 := by
  refine ⟨rfl, rfl, rfl, rfl⟩

/-! The dependency-graph model and the traversal resolvers of
src/src/index.ts.  A provider is a tree over which object identity is made
explicit: `ref` is the allocation identity given out by `createProvider`
(two nodes are the same JS object exactly when the model assigns them the
same ref within one well-formed graph), `pid` is the `id` field and `deps`
the dependency list.  Every operation that calls `createProvider` allocates
the next counter value as the new ref. -/

inductive Prov : Type where
  | node (ref : Nat) (pid : String) (deps : List Prov)

/-- ref is the allocation identity of a provider object. -/
def Prov.ref : Prov → Nat
  | .node r _ _ => r

/-- pid is the `id` field of a provider. -/
def Prov.pid : Prov → String
  | .node _ i _ => i

/-- deps is the `dependencies` list of a provider. -/
def Prov.deps : Prov → List Prov
  | .node _ _ ds => ds

/-- fromEntries embeds `Object.fromEntries(providers.map(p => [p.id, p]))`
(also the Map built the same way by group mock). -/
def fromEntries (ps : List Prov) : List (String × Prov) :=
  ps.map (fun p => (p.pid, p))

mutual
/-- resolveMock embeds the recursive function returned by
`createProviderMockResolver(mockMap)` (src/src/index.ts 667-679): a provider
whose id is a key of the mock map is replaced by the mock (its own subtree
used as-is); a provider with dependencies is rebuilt as
`provider.mock(...provider.dependencies.map(resolveMock))`, which first
rewrites the children and then rebuilds the provider through `mock` (hence a
fresh allocation); a leaf with no match is returned unchanged, shared by
reference. -/
def resolveMock (mm : List (String × Prov)) (p : Prov) (n : Nat) : Prov × Nat :=
  match jsLookup mm p.pid with
  | some q => (q, n)
  | none =>
    if p.deps.isEmpty then (p, n)
    else
      let s := mapResolveMock mm p.deps n
      let mm2 := fromEntries s.1
      let t := mapResolveMock mm2 p.deps s.2
      (Prov.node t.2 p.pid t.1, t.2 + 1)
termination_by sizeOf p
decreasing_by
  all_goals (cases p with | node r i ds => simp [Prov.deps] <;> omega)

/-- mapResolveMock is `dependencies.map(resolveMock)` with the allocation
counter threaded left to right. -/
def mapResolveMock (mm : List (String × Prov)) (ps : List Prov) (n : Nat) :
    List Prov × Nat :=
  match ps with
  | [] => ([], n)
  | p :: rest =>
    let a := resolveMock mm p n
    let b := mapResolveMock mm rest a.2
    (a.1 :: b.1, b.2)
termination_by sizeOf ps
decreasing_by
  all_goals simp <;> omega
end

/-- provMock embeds the provider `mock(...mockProviders)` method of
src/src/index.ts: it rebuilds the provider through `createProvider` (a fresh
allocation) with `dependencies.map(createProviderMockResolver(mockMap))`
where the mock map is `fromEntries` of the given mocks keyed by id. -/
def provMock (p : Prov) (mocks : List Prov) (n : Nat) : Prov × Nat :=
  let mm := fromEntries mocks
  let t := mapResolveMock mm p.deps n
  (Prov.node t.2 p.pid t.1, t.2 + 1)

mutual
/-- resolveClone embeds the recursive function returned by
`createProviderCloneResolver(cloneMap)` (src/src/index.ts 647-665): an
already-cloned provider is returned from the memo map (keyed by the original
object); otherwise `provider.clone()` allocates a fresh structural copy,
a provider with dependencies is rebuilt as
`cloned.mock(...cloned.dependencies.map(resolveClone))` (recursively cloning
every dependency and splicing the clones in through the mock machinery), and
the memo entry is recorded after the rewrite, as in the source. -/
def resolveClone (m : List (Nat × Prov)) (p : Prov) (n : Nat) :
    Prov × List (Nat × Prov) × Nat :=
  match jsLookup m p.ref with
  | some c => (c, m, n)
  | none =>
    if p.deps.isEmpty then
      let c := Prov.node n p.pid []
      (c, m ++ [(p.ref, c)], n + 1)
    else
      let s := mapResolveClone m p.deps (n + 1)
      let mm2 := fromEntries s.1
      let t := mapResolveMock mm2 p.deps s.2.2
      let c := Prov.node t.2 p.pid t.1
      (c, s.2.1 ++ [(p.ref, c)], t.2 + 1)
termination_by sizeOf p
decreasing_by
  all_goals (cases p with | node r i ds => simp [Prov.deps] <;> omega)

/-- mapResolveClone is `list.map(resolveClone)` with the memo map and the
allocation counter threaded left to right. -/
def mapResolveClone (m : List (Nat × Prov)) (ps : List Prov) (n : Nat) :
    List Prov × List (Nat × Prov) × Nat :=
  match ps with
  | [] => ([], m, n)
  | p :: rest =>
    let a := resolveClone m p n
    let b := mapResolveClone a.2.1 rest a.2.2
    (a.1 :: b.1, b.2)
termination_by sizeOf ps
decreasing_by
  all_goals simp <;> omega
end

/-- isolateGroup embeds group `isolate()` (src/src/index.ts 889-893): one
`createProviderCloneResolver()` with a fresh empty memo map is created and
mapped over the member list, so the memo is shared across all members of the
one traversal.  The result carries the final memo map and counter. -/
def isolateGroup (ps : List Prov) (n : Nat) : List Prov × List (Nat × Prov) × Nat :=
  mapResolveClone [] ps n

/-! Unfolding lemmas for the mock resolver. -/

theorem resolveMock_hit (mm : List (String × Prov)) (p : Prov) (n : Nat)
    (q : Prov) (h : jsLookup mm p.pid = some q) :
    resolveMock mm p n = (q, n) := by
  rw [resolveMock.eq_def, h]

theorem resolveMock_leaf (mm : List (String × Prov)) (r : Nat) (i : String)
    (n : Nat) (h : jsLookup mm i = none) :
    resolveMock mm (Prov.node r i []) n = (Prov.node r i [], n) := by
  rw [resolveMock.eq_def]
  simp [Prov.pid, Prov.deps, h]

theorem resolveMock_node (mm : List (String × Prov)) (r : Nat) (i : String)
    (ds : List Prov) (n : Nat) (h : jsLookup mm i = none) (hds : ds ≠ []) :
    resolveMock mm (Prov.node r i ds) n =
      (Prov.node (mapResolveMock (fromEntries (mapResolveMock mm ds n).1) ds
          (mapResolveMock mm ds n).2).2 i
        (mapResolveMock (fromEntries (mapResolveMock mm ds n).1) ds
          (mapResolveMock mm ds n).2).1,
       (mapResolveMock (fromEntries (mapResolveMock mm ds n).1) ds
          (mapResolveMock mm ds n).2).2 + 1) := by
  rw [resolveMock.eq_def]
  simp [Prov.pid, Prov.deps, h, hds]

theorem mapResolveMock_nil (mm : List (String × Prov)) (n : Nat) :
    mapResolveMock mm [] n = ([], n) := by
  rw [mapResolveMock.eq_def]

theorem mapResolveMock_cons (mm : List (String × Prov)) (p : Prov)
    (rest : List Prov) (n : Nat) :
    mapResolveMock mm (p :: rest) n =
      ((resolveMock mm p n).1 :: (mapResolveMock mm rest (resolveMock mm p n).2).1,
       (mapResolveMock mm rest (resolveMock mm p n).2).2) := by
  rw [mapResolveMock.eq_def]

/-- C4 (amended): for the chain third uses second uses first,
`third.mock(firstMock)` with `firstMock.id = first.id` rebuilds second as a
new node whose single dependency is firstMock itself, so
`dependencies[0].dependencies[0]` is firstMock; a LEAF sibling dependency
with no matching id is returned unchanged, shared by reference; but a
sibling dependency that itself has dependencies is rebuilt as a new node
even though its subtree contains no matching id (the amendment: the original
claim promised reference-sharing for every dependency whose subtree has no
match, which holds only for leaves, see the counterexample). -/
theorem c4_transitive_mock_substitution (r1 r2 r3 ra rb rc n : Nat)
    (i1 i2 i3 ia ib ic : String) (mockP : Prov) (hmock : mockP.pid = i1)
    (h12 : i1 ≠ i2) (h1a : i1 ≠ ia) (h1b : i1 ≠ ib) (h1c : i1 ≠ ic)
    (hr2 : r2 < n) (hrb : rb < n) :
    provMock (Prov.node r3 i3 [Prov.node r2 i2 [Prov.node r1 i1 []],
        Prov.node ra ia [], Prov.node rb ib [Prov.node rc ic []]]) [mockP] n =
      (Prov.node (n + 2) i3 [Prov.node n i2 [mockP], Prov.node ra ia [],
        Prov.node (n + 1) ib [Prov.node rc ic []]], n + 3) ∧
    Prov.node n i2 [mockP] ≠ Prov.node r2 i2 [Prov.node r1 i1 []] ∧
    Prov.node (n + 1) ib [Prov.node rc ic []] ≠
      Prov.node rb ib [Prov.node rc ic []] := by
  obtain ⟨rm, im, dm⟩ := mockP
  simp only [Prov.pid] at hmock
  subst hmock
  refine ⟨?_, ?_, ?_⟩
  · simp [provMock, resolveMock, mapResolveMock, jsLookup, fromEntries,
      Prov.pid, Prov.deps, h12, h1a, h1b, h1c]
  · simp only [ne_eq, Prov.node.injEq]
    intro h
    omega
  · simp only [ne_eq, Prov.node.injEq]
    intro h
    omega

/-- C4 witness: the amended theorem applied to a concrete chain with a
sibling leaf and a sibling subtree, and a mock carrying its own subtree. -/
theorem c4_transitive_mock_substitution_witness :
    provMock (Prov.node 2 "third" [Prov.node 1 "second" [Prov.node 0 "first" []],
        Prov.node 3 "aux" [], Prov.node 4 "b" [Prov.node 5 "c" []]])
        [Prov.node 99 "first" [Prov.node 100 "sub" []]] 10 =
      (Prov.node 12 "third"
        [Prov.node 10 "second" [Prov.node 99 "first" [Prov.node 100 "sub" []]],
         Prov.node 3 "aux" [],
         Prov.node 11 "b" [Prov.node 5 "c" []]], 13) ∧
    Prov.node 10 "second" [Prov.node 99 "first" [Prov.node 100 "sub" []]] ≠
      Prov.node 1 "second" [Prov.node 0 "first" []] ∧
    Prov.node 11 "b" [Prov.node 5 "c" []] ≠ Prov.node 4 "b" [Prov.node 5 "c" []] :=
  c4_transitive_mock_substitution 0 1 2 3 4 5 10 "first" "second" "third" "aux" "b" "c"
    (Prov.node 99 "first" [Prov.node 100 "sub" []]) rfl (by decide) (by decide)
    (by decide) (by decide) (by decide) (by decide)

/-- C4 counterexample to the claim as stated: the dependency
`node 1 "b" [node 0 "c" []]` has a subtree with no id matching the mock
"first", yet `third.mock(firstMock)` does not return it unchanged by
reference: the mock resolver rebuilds every provider with a non-empty
dependency list, so the result is a fresh node (ref 4, not 1). -/
theorem c4_nonleaf_rebuilt_counterexample :
    (provMock (Prov.node 2 "third" [Prov.node 1 "b" [Prov.node 0 "c" []]])
        [Prov.node 3 "first" []] 4).1.deps[0]? ≠
      some (Prov.node 1 "b" [Prov.node 0 "c" []]) ∧
    (provMock (Prov.node 2 "third" [Prov.node 1 "b" [Prov.node 0 "c" []]])
        [Prov.node 3 "first" []] 4).1.deps[0]? =
      some (Prov.node 4 "b" [Prov.node 0 "c" []]) := by
  constructor <;>
    simp [provMock, resolveMock, mapResolveMock, jsLookup, fromEntries,
      Prov.pid, Prov.deps]

/-! Occurrence of a provider node inside a dependency graph. -/

/-- Occurs q p states that the node q appears in the dependency tree of p
(possibly p itself). -/
inductive Occurs : Prov → Prov → Prop where
  | refl (p : Prov) : Occurs p p
  | step {q d p : Prov} (hd : d ∈ p.deps) (h : Occurs q d) : Occurs q p

/-- InForest q ps states that q appears in the dependency graph of some
member of the provider list ps. -/
def InForest (q : Prov) (ps : List Prov) : Prop :=
  ∃ p ∈ ps, Occurs q p

theorem sizeOf_lt_of_mem_deps {d p : Prov} (h : d ∈ p.deps) :
    sizeOf d < sizeOf p := by
  cases p with
  | node r i ds =>
    simp only [Prov.deps] at h
    have := List.sizeOf_lt_of_mem h
    simp
    omega

theorem occurs_sizeOf {q p : Prov} (h : Occurs q p) : sizeOf q ≤ sizeOf p := by
  induction h with
  | refl => exact le_refl _
  | step hd h ih => exact le_trans ih (le_of_lt (sizeOf_lt_of_mem_deps hd))

theorem occurs_trans {a b c : Prov} (hab : Occurs a b) (hbc : Occurs b c) :
    Occurs a c := by
  induction hbc with
  | refl => exact hab
  | step hd h ih => exact Occurs.step hd ih

theorem inForest_of_occurs {q p : Prov} {ps : List Prov}
    (h : Occurs q p) (hp : InForest p ps) : InForest q ps := by
  obtain ⟨t, ht, hpt⟩ := hp
  exact ⟨t, ht, occurs_trans h hpt⟩

theorem inForest_deps {p d : Prov} {ps : List Prov}
    (hp : InForest p ps) (hd : d ∈ p.deps) : InForest d ps :=
  inForest_of_occurs (Occurs.step hd (Occurs.refl d)) hp

theorem inForest_of_mem {p : Prov} {ps : List Prov} (h : p ∈ ps) :
    InForest p ps := ⟨p, h, Occurs.refl p⟩

theorem occurs_self_not_in_deps {p d : Prov} (hd : d ∈ p.deps)
    (h : Occurs p d) : False := by
  have h1 := occurs_sizeOf h
  have h2 := sizeOf_lt_of_mem_deps hd
  omega

/-! Unfolding lemmas for the clone resolver. -/

theorem resolveClone_hit (m : List (Nat × Prov)) (p : Prov) (n : Nat)
    (c : Prov) (h : jsLookup m p.ref = some c) :
    resolveClone m p n = (c, m, n) := by
  rw [resolveClone.eq_def, h]

theorem resolveClone_leaf (m : List (Nat × Prov)) (r : Nat) (i : String)
    (n : Nat) (h : jsLookup m r = none) :
    resolveClone m (Prov.node r i []) n =
      (Prov.node n i [], m ++ [(r, Prov.node n i [])], n + 1) := by
  rw [resolveClone.eq_def]
  simp [Prov.ref, Prov.pid, Prov.deps, h]

theorem resolveClone_node (m : List (Nat × Prov)) (r : Nat) (i : String)
    (ds : List Prov) (n : Nat) (h : jsLookup m r = none) (hds : ds ≠ []) :
    resolveClone m (Prov.node r i ds) n =
      (Prov.node (mapResolveMock
          (fromEntries (mapResolveClone m ds (n + 1)).1) ds
          (mapResolveClone m ds (n + 1)).2.2).2 i
        (mapResolveMock
          (fromEntries (mapResolveClone m ds (n + 1)).1) ds
          (mapResolveClone m ds (n + 1)).2.2).1,
       (mapResolveClone m ds (n + 1)).2.1 ++
         [(r, Prov.node (mapResolveMock
             (fromEntries (mapResolveClone m ds (n + 1)).1) ds
             (mapResolveClone m ds (n + 1)).2.2).2 i
           (mapResolveMock
             (fromEntries (mapResolveClone m ds (n + 1)).1) ds
             (mapResolveClone m ds (n + 1)).2.2).1)],
       (mapResolveMock
          (fromEntries (mapResolveClone m ds (n + 1)).1) ds
          (mapResolveClone m ds (n + 1)).2.2).2 + 1) := by
  rw [resolveClone.eq_def]
  simp [Prov.ref, Prov.pid, Prov.deps, h, hds]

theorem mapResolveClone_nil (m : List (Nat × Prov)) (n : Nat) :
    mapResolveClone m [] n = ([], m, n) := by
  rw [mapResolveClone.eq_def]

theorem mapResolveClone_cons (m : List (Nat × Prov)) (p : Prov)
    (rest : List Prov) (n : Nat) :
    mapResolveClone m (p :: rest) n =
      ((resolveClone m p n).1 ::
        (mapResolveClone (resolveClone m p n).2.1 rest (resolveClone m p n).2.2).1,
       (mapResolveClone (resolveClone m p n).2.1 rest (resolveClone m p n).2.2).2) := by
  rw [mapResolveClone.eq_def]

/-! Lookup in a fromEntries map with distinct ids. -/

theorem jsLookup_fromEntries_not_mem (cs : List Prov) (key : String)
    (h : key ∉ cs.map Prov.pid) :
    jsLookup (fromEntries cs) key = none := by
  induction cs with
  | nil => rfl
  | cons c rest ih =>
    simp only [List.map_cons, List.mem_cons, not_or] at h
    have h2 : jsLookup (fromEntries rest) key = none := ih h.2
    simp only [fromEntries] at h2 ⊢
    simp only [List.map_cons, jsLookup, h2]
    rw [if_neg (fun hh => h.1 hh.symm)]

theorem jsLookup_fromEntries_nodup (cs : List Prov)
    (hnd : (cs.map Prov.pid).Nodup) :
    ∀ (j : Nat) (c : Prov), cs[j]? = some c →
      jsLookup (fromEntries cs) c.pid = some c := by
  induction cs with
  | nil => intro j c h; simp at h
  | cons c0 rest ih =>
    intro j c h
    simp only [List.map_cons] at hnd
    cases j with
    | zero =>
      simp only [List.getElem?_cons_zero, Option.some.injEq] at h
      subst h
      have hnotm : c0.pid ∉ rest.map Prov.pid := (List.nodup_cons.mp hnd).1
      have h2 : jsLookup (List.map (fun p => (p.pid, p)) rest) c0.pid = none := by
        simpa [fromEntries] using jsLookup_fromEntries_not_mem rest c0.pid hnotm
      simp only [fromEntries, List.map_cons, jsLookup, h2]
      simp
    | succ j' =>
      simp only [List.getElem?_cons_succ] at h
      have hr := ih (List.nodup_cons.mp hnd).2 j' c h
      simp only [fromEntries] at hr ⊢
      simp only [List.map_cons, jsLookup, hr]

/-- mapResolveMock over a list of providers each of which hits the mock map
returns the mapped list unchanged in the counter. -/
theorem mapResolveMock_all_hits (mm2 : List (String × Prov)) :
    ∀ (ds cs : List Prov) (n : Nat), ds.length = cs.length →
      (∀ (j : Nat) (d c : Prov), ds[j]? = some d → cs[j]? = some c →
        jsLookup mm2 d.pid = some c) →
      mapResolveMock mm2 ds n = (cs, n) := by
  intro ds
  induction ds with
  | nil =>
    intro cs n hlen _
    cases cs with
    | nil => exact mapResolveMock_nil mm2 n
    | cons c rest => simp at hlen
  | cons d rest ih =>
    intro cs n hlen hall
    cases cs with
    | nil => simp at hlen
    | cons c crest =>
      have h0 : jsLookup mm2 d.pid = some c := hall 0 d c (by simp) (by simp)
      rw [mapResolveMock_cons, resolveMock_hit mm2 d n c h0]
      have := ih crest n (by simpa using hlen)
        (fun j dd cc hd hc => hall (j + 1) dd cc (by simpa using hd) (by simpa using hc))
      rw [this]

theorem jsLookup_append_isSome {κ ν : Type} [DecidableEq κ]
    (l : List (κ × ν)) (k0 k : κ) (v : ν)
    (h : (jsLookup l k).isSome) : (jsLookup (l ++ [(k0, v)]) k).isSome := by
  rw [jsLookup_append]
  split
  · simp
  · exact h

/-- MemoOK is the invariant of the clone memo map during one traversal of
the forest ps with all fresh allocations at or above n₀: every entry maps
the ref of some node q of the forest to a clone that keeps the id of q, has
a fresh ref, whose dependency list is the pointwise memo image of the
dependency list of q, and whose whole subgraph has been memoized. -/
def MemoOK (ps : List Prov) (n₀ : Nat) (m : List (Nat × Prov)) : Prop :=
  ∀ r c, jsLookup m r = some c → ∃ q, InForest q ps ∧ q.ref = r ∧
    c.pid = q.pid ∧ n₀ ≤ c.ref ∧
    (∀ (j : Nat) (d : Prov), q.deps[j]? = some d →
      ∃ e, jsLookup m d.ref = some e ∧ c.deps[j]? = some e) ∧
    (∀ t, Occurs t q → (jsLookup m t.ref).isSome)

/-- NodePost collects what one resolveClone call guarantees: the memo
invariant is preserved, the memo grows monotonically (values untouched), the
counter is monotone, the input node is memoized to the returned clone, new
memo entries only concern nodes occurring in the input, and the whole input
subgraph is memoized. -/
def NodePost (ps : List Prov) (n₀ : Nat) (p : Prov) (m : List (Nat × Prov))
    (n : Nat) : Prop :=
  MemoOK ps n₀ (resolveClone m p n).2.1 ∧
  (∀ r c, jsLookup m r = some c → jsLookup (resolveClone m p n).2.1 r = some c) ∧
  n ≤ (resolveClone m p n).2.2 ∧
  jsLookup (resolveClone m p n).2.1 p.ref = some (resolveClone m p n).1 ∧
  (∀ r, (jsLookup (resolveClone m p n).2.1 r).isSome →
    (jsLookup m r).isSome ∨ ∃ q, Occurs q p ∧ q.ref = r) ∧
  (∀ t, Occurs t p → (jsLookup (resolveClone m p n).2.1 t.ref).isSome)

/-- ListPost is the list analogue of NodePost for mapResolveClone, with the
returned clones positionally aligned with the input list. -/
def ListPost (ps : List Prov) (n₀ : Nat) (l : List Prov)
    (m : List (Nat × Prov)) (n : Nat) : Prop :=
  MemoOK ps n₀ (mapResolveClone m l n).2.1 ∧
  (∀ r c, jsLookup m r = some c → jsLookup (mapResolveClone m l n).2.1 r = some c) ∧
  n ≤ (mapResolveClone m l n).2.2 ∧
  (mapResolveClone m l n).1.length = l.length ∧
  (∀ (j : Nat) (p : Prov), l[j]? = some p →
    ∃ c, (mapResolveClone m l n).1[j]? = some c ∧
      jsLookup (mapResolveClone m l n).2.1 p.ref = some c) ∧
  (∀ r, (jsLookup (mapResolveClone m l n).2.1 r).isSome →
    (jsLookup m r).isSome ∨ ∃ q, (∃ d ∈ l, Occurs q d) ∧ q.ref = r) ∧
  (∀ d ∈ l, ∀ t, Occurs t d → (jsLookup (mapResolveClone m l n).2.1 t.ref).isSome)

theorem nodePost_hit (ps : List Prov) (n₀ : Nat)
    (hwf1 : ∀ q t, InForest q ps → InForest t ps → q.ref = t.ref → q = t)
    (p : Prov) (m : List (Nat × Prov)) (n : Nat) (c : Prov)
    (hmok : MemoOK ps n₀ m) (hp : InForest p ps)
    (hit : jsLookup m p.ref = some c) : NodePost ps n₀ p m n := by
  have heq : resolveClone m p n = (c, m, n) := resolveClone_hit m p n c hit
  simp only [NodePost, heq]
  refine ⟨hmok, fun r c0 h => h, le_refl n, by rw [hit], fun r h => Or.inl h, ?_⟩
  intro t ht
  obtain ⟨q, hqf, hqr, _, _, _, hocc⟩ := hmok p.ref c hit
  have hqp : q = p := hwf1 q p hqf hp hqr
  subst hqp
  exact hocc t ht

theorem occurs_leaf_eq {t : Prov} {r : Nat} {i : String}
    (ht : Occurs t (Prov.node r i [])) : t = Prov.node r i [] := by
  cases ht with
  | refl => rfl
  | step hd h => simp [Prov.deps] at hd

theorem nodePost_leaf (ps : List Prov) (n₀ : Nat) (r : Nat) (i : String)
    (m : List (Nat × Prov)) (n : Nat)
    (hmok : MemoOK ps n₀ m) (hn : n₀ ≤ n) (hp : InForest (Prov.node r i []) ps)
    (hlook : jsLookup m r = none) : NodePost ps n₀ (Prov.node r i []) m n := by
  have heq := resolveClone_leaf m r i n hlook
  simp only [NodePost, heq, Prov.ref]
  refine ⟨?_, ?_, by omega, ?_, ?_, ?_⟩
  · intro r' c' hl'
    rw [jsLookup_append] at hl'
    split at hl'
    · rename_i hrr
      subst hrr
      obtain rfl : Prov.node n i [] = c' := by simpa using hl'
      refine ⟨Prov.node r i [], hp, rfl, rfl, hn, ?_, ?_⟩
      · intro j d hd
        simp [Prov.deps] at hd
      · intro t ht
        obtain rfl := occurs_leaf_eq ht
        simp only [Prov.ref]
        rw [jsLookup_append, if_pos rfl]
        simp
    · obtain ⟨q, hqf, hqr, hqpid, hqref, hqpos, hqocc⟩ := hmok r' c' hl'
      refine ⟨q, hqf, hqr, hqpid, hqref, ?_, ?_⟩
      · intro j d hd
        obtain ⟨e, he1, he2⟩ := hqpos j d hd
        refine ⟨e, ?_, he2⟩
        rw [jsLookup_append]
        split
        · rename_i hrr
          rw [← hrr] at he1
          rw [hlook] at he1
          exact absurd he1 (by simp)
        · exact he1
      · intro t ht
        exact jsLookup_append_isSome m r _ _ (hqocc t ht)
  · intro r' c' h
    rw [jsLookup_append]
    split
    · rename_i hrr
      rw [← hrr, hlook] at h
      exact absurd h (by simp)
    · exact h
  · rw [jsLookup_append, if_pos rfl]
  · intro r' h'
    rw [jsLookup_append] at h'
    split at h'
    · rename_i hrr
      exact Or.inr ⟨Prov.node r i [], Occurs.refl _, by simp only [Prov.ref]; exact hrr⟩
    · exact Or.inl h'
  · intro t ht
    obtain rfl := occurs_leaf_eq ht
    simp only [Prov.ref]
    rw [jsLookup_append, if_pos rfl]
    simp

theorem nodePost_node (ps : List Prov) (n₀ : Nat)
    (hwf1 : ∀ q t, InForest q ps → InForest t ps → q.ref = t.ref → q = t)
    (hwf2 : ∀ q, InForest q ps → (q.deps.map Prov.pid).Nodup)
    (r : Nat) (i : String) (ds : List Prov) (m : List (Nat × Prov)) (n : Nat)
    (hds : ds ≠ []) (hmok : MemoOK ps n₀ m) (hn : n₀ ≤ n)
    (hp : InForest (Prov.node r i ds) ps) (hlook : jsLookup m r = none)
    (hlist : ListPost ps n₀ ds m (n + 1)) :
    NodePost ps n₀ (Prov.node r i ds) m n := by
  have hdepsIn : ∀ d ∈ ds, InForest d ps := by
    intro d hd
    exact inForest_deps hp (by simpa [Prov.deps] using hd)
  rcases hsm : mapResolveClone m ds (n + 1) with ⟨cs, m₁, n₁⟩
  simp only [ListPost, hsm] at hlist
  obtain ⟨hm1ok, hmono, hn1, hlen, hpos, hdom, hoccs⟩ := hlist
  have hA : jsLookup m₁ r = none := by
    by_contra hcon
    have hsome : (jsLookup m₁ r).isSome := by
      cases hl : jsLookup m₁ r with
      | none => exact absurd hl hcon
      | some c => simp
    rcases hdom r hsome with hleft | ⟨q, ⟨d, hd, hqd⟩, hqr⟩
    · rw [hlook] at hleft
      simp at hleft
    · have hqf : InForest q ps := inForest_of_occurs hqd (hdepsIn d hd)
      have : q = Prov.node r i ds := hwf1 q (Prov.node r i ds) hqf hp hqr
      subst this
      exact occurs_self_not_in_deps (by simpa [Prov.deps] using hd) hqd
  have hpid : ∀ (j : Nat) (d c : Prov), ds[j]? = some d → cs[j]? = some c →
      c.pid = d.pid := by
    intro j d c hd hc
    obtain ⟨c', hc'1, hc'2⟩ := hpos j d hd
    rw [hc] at hc'1
    obtain rfl : c = c' := by simpa using hc'1
    obtain ⟨q, hqf, hqr, hqpid, _, _, _⟩ := hm1ok d.ref c hc'2
    have : q = d := hwf1 q d hqf (hdepsIn d (by
      have := List.getElem?_mem hd
      exact this)) hqr
    subst this
    exact hqpid
  have hmap : cs.map Prov.pid = ds.map Prov.pid := by
    apply List.ext_getElem?
    intro j
    rw [List.getElem?_map, List.getElem?_map]
    cases hd : ds[j]? with
    | some d =>
      obtain ⟨c, hc1, _⟩ := hpos j d hd
      rw [hc1]
      simp [hpid j d c hd hc1]
    | none =>
      have hj : ds.length ≤ j := by
        by_contra hcon
        push_neg at hcon
        rw [List.getElem?_eq_getElem hcon] at hd
        simp at hd
      have : cs[j]? = none := by
        apply List.getElem?_eq_none
        omega
      rw [this]
  have hcnd : (cs.map Prov.pid).Nodup := by
    rw [hmap]
    simpa [Prov.deps] using hwf2 (Prov.node r i ds) hp
  have hB : mapResolveMock (fromEntries cs) ds n₁ = (cs, n₁) := by
    apply mapResolveMock_all_hits (fromEntries cs) ds cs n₁ hlen.symm
    intro j d c hd hc
    have := jsLookup_fromEntries_nodup cs hcnd j c hc
    rw [hpid j d c hd hc] at this
    exact this
  have heq2 : resolveClone m (Prov.node r i ds) n =
      (Prov.node n₁ i cs, m₁ ++ [(r, Prov.node n₁ i cs)], n₁ + 1) := by
    rw [resolveClone_node m r i ds n hlook hds, hsm]
    simp only [hB]
  simp only [NodePost, heq2, Prov.ref, Prov.deps]
  refine ⟨?_, ?_, by omega, ?_, ?_, ?_⟩
  · intro r' c' hl'
    rw [jsLookup_append] at hl'
    split at hl'
    · rename_i hrr
      subst hrr
      obtain rfl : Prov.node n₁ i cs = c' := by simpa using hl'
      refine ⟨Prov.node r i ds, hp, rfl, rfl, ?_, ?_, ?_⟩
      · show n₀ ≤ n₁
        omega
      · intro j d hd
        simp only [Prov.deps] at hd
        obtain ⟨c, hc1, hc2⟩ := hpos j d hd
        refine ⟨c, ?_, by simpa [Prov.deps] using hc1⟩
        rw [jsLookup_append]
        split
        · rename_i hrr2
          rw [← hrr2, hA] at hc2
          exact absurd hc2 (by simp)
        · exact hc2
      · intro t ht
        cases ht with
        | refl =>
          simp only [Prov.ref]
          rw [jsLookup_append, if_pos rfl]
          simp
        | step hd h =>
          rename_i d
          have hd' : d ∈ ds := by simpa [Prov.deps] using hd
          exact jsLookup_append_isSome m₁ r _ _ (hoccs d hd' t h)
    · obtain ⟨q, hqf, hqr, hqpid, hqref, hqpos, hqocc⟩ := hm1ok r' c' hl'
      refine ⟨q, hqf, hqr, hqpid, hqref, ?_, ?_⟩
      · intro j d hd
        obtain ⟨e, he1, he2⟩ := hqpos j d hd
        refine ⟨e, ?_, he2⟩
        rw [jsLookup_append]
        split
        · rename_i hrr2
          rw [← hrr2, hA] at he1
          exact absurd he1 (by simp)
        · exact he1
      · intro t ht
        exact jsLookup_append_isSome m₁ r _ _ (hqocc t ht)
  · intro r' c' h
    have h1 := hmono r' c' h
    rw [jsLookup_append]
    split
    · rename_i hrr
      rw [← hrr, hA] at h1
      exact absurd h1 (by simp)
    · exact h1
  · rw [jsLookup_append, if_pos rfl]
  · intro r' h'
    rw [jsLookup_append] at h'
    split at h'
    · rename_i hrr
      exact Or.inr ⟨Prov.node r i ds, Occurs.refl _, by simp only [Prov.ref]; exact hrr⟩
    · rcases hdom r' h' with hleft | ⟨q, ⟨d, hd, hqd⟩, hqr⟩
      · exact Or.inl hleft
      · exact Or.inr ⟨q, Occurs.step (by simpa [Prov.deps] using hd) hqd, hqr⟩
  · intro t ht
    cases ht with
    | refl =>
      simp only [Prov.ref]
      rw [jsLookup_append, if_pos rfl]
      simp
    | step hd h =>
      rename_i d
      have hd' : d ∈ ds := by simpa [Prov.deps] using hd
      exact jsLookup_append_isSome m₁ r _ _ (hoccs d hd' t h)

theorem listPost_cons (ps : List Prov) (n₀ : Nat) (p : Prov) (rest : List Prov)
    (m : List (Nat × Prov)) (n : Nat)
    (hnode : NodePost ps n₀ p m n)
    (hrest : ListPost ps n₀ rest (resolveClone m p n).2.1 (resolveClone m p n).2.2) :
    ListPost ps n₀ (p :: rest) m n := by
  rcases ha : resolveClone m p n with ⟨c, m₁, n₁⟩
  rw [ha] at hrest
  simp only [NodePost, ha] at hnode
  obtain ⟨hok1, hmono1, hn1, hself1, hdom1, hocc1⟩ := hnode
  rcases hb : mapResolveClone m₁ rest n₁ with ⟨cs, m₂, n₂⟩
  simp only [ListPost, hb] at hrest
  obtain ⟨hok2, hmono2, hn2, hlen2, hpos2, hdom2, hocc2⟩ := hrest
  have hisSome2 : ∀ k, (jsLookup m₁ k).isSome → (jsLookup m₂ k).isSome := by
    intro k h
    cases hl : jsLookup m₁ k with
    | none => rw [hl] at h; simp at h
    | some v => rw [hmono2 k v hl]; simp
  have hcons : mapResolveClone m (p :: rest) n = (c :: cs, m₂, n₂) := by
    rw [mapResolveClone_cons, ha]
    simp only [hb]
  simp only [ListPost, hcons]
  refine ⟨hok2, ?_, le_trans hn1 hn2, by simp [hlen2], ?_, ?_, ?_⟩
  · intro r c0 h
    exact hmono2 r c0 (hmono1 r c0 h)
  · intro j q hq
    cases j with
    | zero =>
      obtain rfl : p = q := by simpa using hq
      refine ⟨c, by simp, ?_⟩
      exact hmono2 p.ref c hself1
    | succ j' =>
      obtain ⟨c0, hc0, hc0l⟩ := hpos2 j' q (by simpa using hq)
      exact ⟨c0, by simpa using hc0, hc0l⟩
  · intro r' h'
    rcases hdom2 r' h' with h2 | ⟨q, ⟨d, hd, hqd⟩, hqr⟩
    · rcases hdom1 r' h2 with h1 | ⟨q, hq, hqr⟩
      · exact Or.inl h1
      · exact Or.inr ⟨q, ⟨p, by simp, hq⟩, hqr⟩
    · exact Or.inr ⟨q, ⟨d, by simp [hd], hqd⟩, hqr⟩
  · intro d hd t ht
    rcases List.mem_cons.mp hd with rfl | hd'
    · exact hisSome2 t.ref (hocc1 t ht)
    · exact hocc2 d hd' t ht

/-- clone_spec is the invariant lemma of one clone traversal over a
well-formed forest: resolveClone and mapResolveClone preserve MemoOK, grow
the memo monotonically, memoize every processed node, and return clones
positionally aligned with their inputs. -/
theorem clone_spec (ps : List Prov) (n₀ : Nat)
    (hwf1 : ∀ q t, InForest q ps → InForest t ps → q.ref = t.ref → q = t)
    (hwf2 : ∀ q, InForest q ps → (q.deps.map Prov.pid).Nodup) :
    ∀ fuel : Nat,
      (∀ (l : List Prov) (m : List (Nat × Prov)) (n : Nat), sizeOf l ≤ fuel →
        MemoOK ps n₀ m → n₀ ≤ n → (∀ p ∈ l, InForest p ps) →
        ListPost ps n₀ l m n) ∧
      (∀ (p : Prov) (m : List (Nat × Prov)) (n : Nat), sizeOf p ≤ fuel →
        MemoOK ps n₀ m → n₀ ≤ n → InForest p ps →
        NodePost ps n₀ p m n) := by
  intro fuel
  induction fuel using Nat.strong_induction_on with
  | _ fuel ih =>
    constructor
    · intro l m n hsz hmok hn hl
      cases l with
      | nil =>
        have heq := mapResolveClone_nil m n
        simp only [ListPost, heq]
        refine ⟨hmok, fun r c h => h, le_refl n, by trivial, ?_, fun r h => Or.inl h, ?_⟩
        · intro j p hp
          simp at hp
        · intro d hd
          simp at hd
      | cons p rest =>
        have hszp : sizeOf p < fuel := by simp at hsz; omega
        have hszr : sizeOf rest < fuel := by simp at hsz; omega
        have hnode := (ih (sizeOf p) hszp).2 p m n (le_refl _) hmok hn (hl p (by simp))
        have hok1 : MemoOK ps n₀ (resolveClone m p n).2.1 := hnode.1
        have hn1 : n ≤ (resolveClone m p n).2.2 := hnode.2.2.1
        have hrest := (ih (sizeOf rest) hszr).1 rest (resolveClone m p n).2.1
          (resolveClone m p n).2.2 (le_refl _) hok1 (by omega)
          (fun q hq => hl q (by simp [hq]))
        exact listPost_cons ps n₀ p rest m n hnode hrest
    · intro p m n hsz hmok hn hp
      cases p with
      | node r i ds =>
        cases hlook : jsLookup m (Prov.node r i ds).ref with
        | some c =>
          exact nodePost_hit ps n₀ hwf1 (Prov.node r i ds) m n c hmok hp hlook
        | none =>
          by_cases hds : ds = []
          · subst hds
            exact nodePost_leaf ps n₀ r i m n hmok hn hp
              (by simpa [Prov.ref] using hlook)
          · have hszds : sizeOf ds < fuel := by simp at hsz; omega
            have hlist := (ih (sizeOf ds) hszds).1 ds m (n + 1) (le_refl _) hmok
              (by omega) (fun d hd => inForest_deps hp (by simpa [Prov.deps] using hd))
            exact nodePost_node ps n₀ hwf1 hwf2 r i ds m n hds hmok hn hp
              (by simpa [Prov.ref] using hlook) hlist

/-- C3: for every group of providers forming a well-formed dependency forest
(object identity determines the node, sibling ids are distinct, and the
allocation counter starts above every existing ref) and every provider x
reachable from the members (directly or transitively), group isolate()
produces, under the one shared traversal memo, a single replacement x1 for x
that is a fresh object (allocated at or above the starting counter, hence not
the original x), such that every dependency edge of every node of the forest
that pointed to x now points to that same x1 in the corresponding clone, and
every member of the group maps positionally to its clone. -/
theorem c3_isolate_shared_fresh_replacement (ps : List Prov) (x : Prov) (n : Nat)
    (hwf1 : ∀ q t, InForest q ps → InForest t ps → q.ref = t.ref → q = t)
    (hwf2 : ∀ q, InForest q ps → (q.deps.map Prov.pid).Nodup)
    (hwf3 : ∀ q, InForest q ps → q.ref < n)
    (hx : InForest x ps) :
    ∃ x1, jsLookup (isolateGroup ps n).2.1 x.ref = some x1 ∧ n ≤ x1.ref ∧ x1 ≠ x ∧
      (∀ (q : Prov) (j : Nat), InForest q ps → q.deps[j]? = some x →
        ∃ q1, jsLookup (isolateGroup ps n).2.1 q.ref = some q1 ∧
          q1.deps[j]? = some x1) ∧
      (∀ (j : Nat) (p : Prov), ps[j]? = some p →
        ∃ p1, (isolateGroup ps n).1[j]? = some p1 ∧
          jsLookup (isolateGroup ps n).2.1 p.ref = some p1) := by
  have hempty : MemoOK ps n [] := by
    intro r c h
    simp [jsLookup] at h
  have hlp := (clone_spec ps n hwf1 hwf2 (sizeOf ps)).1 ps [] n (le_refl _)
    hempty (le_refl n) (fun p hp => inForest_of_mem hp)
  simp only [ListPost] at hlp
  obtain ⟨hmok, _, _, _, hpos, _, hoccF⟩ := hlp
  simp only [isolateGroup]
  obtain ⟨px, hpx, hox⟩ := hx
  have hxs : (jsLookup (mapResolveClone [] ps n).2.1 x.ref).isSome :=
    hoccF px hpx x hox
  obtain ⟨x1, hx1⟩ := Option.isSome_iff_exists.mp hxs
  obtain ⟨qx, hqxf, hqxr, _, hqxref, _, _⟩ := hmok x.ref x1 hx1
  have hxne : x1 ≠ x := by
    intro h
    have hx3 := hwf3 x ⟨px, hpx, hox⟩
    rw [h] at hqxref
    omega
  refine ⟨x1, hx1, hqxref, hxne, ?_, ?_⟩
  · intro q j hq hqx
    obtain ⟨pq, hpq, hoq⟩ := hq
    have hqs : (jsLookup (mapResolveClone [] ps n).2.1 q.ref).isSome :=
      hoccF pq hpq q hoq
    obtain ⟨q1, hq1⟩ := Option.isSome_iff_exists.mp hqs
    obtain ⟨q0, hq0f, hq0r, _, _, hq0pos, _⟩ := hmok q.ref q1 hq1
    have hq0q : q0 = q := hwf1 q0 q hq0f ⟨pq, hpq, hoq⟩ hq0r
    rw [hq0q] at hq0pos
    obtain ⟨e, he1, he2⟩ := hq0pos j x hqx
    rw [hx1] at he1
    obtain rfl : x1 = e := by simpa using he1
    exact ⟨q1, hq1, he2⟩
  · intro j p hp
    exact hpos j p hp

/-- exFirst is the shared leaf provider of the C3 example forest. -/
def exFirst : Prov := Prov.node 0 "first" []

/-- exMid depends on exFirst, giving exSecond a transitive path to it. -/
def exMid : Prov := Prov.node 3 "mid" [exFirst]

/-- exSecond reaches exFirst transitively through exMid. -/
def exSecond : Prov := Prov.node 1 "second" [exMid]

/-- exThird depends on exFirst directly. -/
def exThird : Prov := Prov.node 2 "third" [exFirst]

theorem inForest_example (q : Prov) :
    InForest q [exSecond, exThird] ↔
      q = exSecond ∨ q = exMid ∨ q = exThird ∨ q = exFirst := by
  constructor
  · rintro ⟨p, hp, ho⟩
    simp only [List.mem_cons, List.mem_singleton, List.not_mem_nil, or_false] at hp
    rcases hp with rfl | rfl
    · cases ho with
      | refl => exact Or.inl rfl
      | step hd h =>
        rename_i d
        simp only [exSecond, Prov.deps, List.mem_singleton] at hd
        subst hd
        cases h with
        | refl => exact Or.inr (Or.inl rfl)
        | step hd2 h2 =>
          rename_i d2
          simp only [exMid, Prov.deps, List.mem_singleton] at hd2
          subst hd2
          cases h2 with
          | refl => exact Or.inr (Or.inr (Or.inr rfl))
          | step hd3 h3 =>
            rename_i d3
            simp [exFirst, Prov.deps] at hd3
    · cases ho with
      | refl => exact Or.inr (Or.inr (Or.inl rfl))
      | step hd h =>
        rename_i d
        simp only [exThird, Prov.deps, List.mem_singleton] at hd
        subst hd
        cases h with
        | refl => exact Or.inr (Or.inr (Or.inr rfl))
        | step hd2 h2 =>
          rename_i d2
          simp [exFirst, Prov.deps] at hd2
  · rintro (rfl | rfl | rfl | rfl)
    · exact ⟨exSecond, by simp, Occurs.refl _⟩
    · exact ⟨exSecond, by simp, Occurs.step (by simp [exSecond, Prov.deps]) (Occurs.refl _)⟩
    · exact ⟨exThird, by simp, Occurs.refl _⟩
    · exact ⟨exThird, by simp, Occurs.step (by simp [exThird, Prov.deps]) (Occurs.refl _)⟩

/-- C3 witness: the theorem applied to the concrete forest in which exSecond
reaches the shared exFirst transitively (through exMid) and exThird reaches
it directly. -/
theorem c3_isolate_shared_fresh_replacement_witness :
    ∃ x1, jsLookup (isolateGroup [exSecond, exThird] 4).2.1 exFirst.ref = some x1 ∧
      4 ≤ x1.ref ∧ x1 ≠ exFirst ∧
      (∀ (q : Prov) (j : Nat), InForest q [exSecond, exThird] →
        q.deps[j]? = some exFirst →
        ∃ q1, jsLookup (isolateGroup [exSecond, exThird] 4).2.1 q.ref = some q1 ∧
          q1.deps[j]? = some x1) ∧
      (∀ (j : Nat) (p : Prov), [exSecond, exThird][j]? = some p →
        ∃ p1, (isolateGroup [exSecond, exThird] 4).1[j]? = some p1 ∧
          jsLookup (isolateGroup [exSecond, exThird] 4).2.1 p.ref = some p1) := by
  apply c3_isolate_shared_fresh_replacement [exSecond, exThird] exFirst 4
  · intro q t hq ht h
    rw [inForest_example] at hq ht
    rcases hq with rfl | rfl | rfl | rfl <;> rcases ht with rfl | rfl | rfl | rfl <;>
      first
        | rfl
        | (exfalso
           simp [exFirst, exSecond, exMid, exThird, Prov.ref] at h)
  · intro q hq
    rw [inForest_example] at hq
    rcases hq with rfl | rfl | rfl | rfl <;>
      simp [exFirst, exSecond, exMid, exThird, Prov.deps, Prov.pid]
  · intro q hq
    rw [inForest_example] at hq
    rcases hq with rfl | rfl | rfl | rfl <;>
      simp [exFirst, exSecond, exMid, exThird, Prov.ref]
  · rw [inForest_example]
    simp
